import Mathlib

/-!
Verification of the LSH-based scalable recommendation retrieval tutorial.

The repository consists of two notebooks.  Part 2 (the LSH notebook) applies
the Xbox MIPS-to-MCSS transformation to PMF item/user vectors and queries an
LSH index.  The Xbox transformation cell is embedded here over the reals;
the LSH index itself lives in `utils/lsh.py`, which is not part of the
provided sources, so it is modelled from the specification (marked below).
-/

namespace SRR

/-- Inner product of two coordinate lists, as used by the notebook
(`dot` is the similarity function passed to `evaluate_LSHTopK`). -/
def dot {α : Type} [Add α] [Mul α] [Zero α] : List α → List α → α
  | a :: as, b :: bs => a * b + dot as bs
  | _, _ => 0

/-- Euclidean norm of a coordinate list (`np.linalg.norm` of a row). -/
noncomputable def vnorm (v : List ℝ) : ℝ := Real.sqrt (dot v v)

/-- The per-row norms array: `M = np.linalg.norm(data, axis=1)`. -/
noncomputable def norms (data : List (List ℝ)) : List ℝ := data.map vnorm

/-- `max_norm = max(M)`, the maximum item-vector norm.  Python's `max` over
the (nonempty) norms array is embedded as a fold with seed `0`; norms are
nonnegative, so on a nonempty corpus the seed never wins. -/
noncomputable def max_norm (data : List (List ℝ)) : ℝ :=
  (norms data).foldr max 0

/-- The appended column:
`np.sqrt(max_norm**2 - pow(M, 2))`, one entry per item row. -/
noncomputable def xboxColumn (data : List (List ℝ)) : List ℝ :=
  (norms data).map (fun m => Real.sqrt (max_norm data ^ 2 - m ^ 2))

/-- `xbox_data = np.concatenate((data, sqrt_column), axis=1)`:
row-wise concatenation of the corpus with the square-root column. -/
noncomputable def xbox_data (data : List (List ℝ)) : List (List ℝ) :=
  List.zipWith (fun y z => y ++ [z]) data (xboxColumn data)

/-- `xbox_queries = np.concatenate((queries, zeros_column), axis=1)`. -/
def xbox_queries (qs : List (List ℝ)) : List (List ℝ) :=
  qs.map (fun x => x ++ [(0 : ℝ)])

/-- `same_data`: the corpus with a zero coordinate appended to each row. -/
def same_data (data : List (List ℝ)) : List (List ℝ) :=
  data.map (fun y => y ++ [(0 : ℝ)])

/-- `same_queries`: the queries with a zero coordinate appended to each row. -/
def same_queries (qs : List (List ℝ)) : List (List ℝ) :=
  qs.map (fun x => x ++ [(0 : ℝ)])

/-- Cosine similarity, the metric the transformed vectors are ranked by. -/
noncomputable def cosine (u v : List ℝ) : ℝ := dot u v / (vnorm u * vnorm v)

/-- The Xbox transform of a single item row of `data`. -/
noncomputable def xboxRow (data : List (List ℝ)) (y : List ℝ) : List ℝ :=
  y ++ [Real.sqrt (max_norm data ^ 2 - vnorm y ^ 2)]

/-- Modelled from the spec: `utils/lsh.py` (the LSH implementation imported
by both notebooks) is not among the provided sources, so the LSH index is
modelled from the specification.  Item identifiers are natural numbers. -/
abbrev ItemId := ℕ

/-- Modelled from the spec: vectors handled by the LSH index, with exact
rational coordinates standing in for the floating-point entries. -/
abbrev Vec := List ℚ

/-- Modelled from the spec: one hash function of the cosine family maps a
vector `v` to `sign(dot(direction, v)) ∈ \x7b0,1\x7d` (random hyperplane
hashing); the sampled direction is explicit immutable state. -/
def hashBit (direction v : Vec) : ℕ :=
  if 0 ≤ dot direction v then 1 else 0

/-- Modelled from the spec: the composite bucket key of one table is the
deterministic bit-packing `key = Σ bit_j * 2 ^ j` of the table's `k` hash
function outputs. -/
def compositeKey (fns : List Vec) (v : Vec) : ℕ :=
  (fns.map (fun direction => hashBit direction v)).foldr
    (fun b acc => b + 2 * acc) 0

/-- Modelled from the spec: a hash table owns its `k` sampled hash functions
(direction vectors), drawn at index-construction time. -/
structure HashTable where
  fns : List Vec
deriving DecidableEq

/-- Modelled from the spec: the LSH index owns `L` hash tables and is built
over a corpus mapping each `ItemId` to its vector. -/
structure LSHIndex where
  tables : List HashTable
  corpus : List (ItemId × Vec)
deriving DecidableEq

/-- Modelled from the spec: the error taxonomy entry for invalid build
configurations. -/
inductive LSHError where
  | InvalidConfig
deriving DecidableEq

/-- Modelled from the spec: a bucket lookup returns the identifiers of the
corpus items whose composite key under the table's hash functions equals the
probed key. -/
def bucket (t : HashTable) (corpus : List (ItemId × Vec)) (key : ℕ) :
    List ItemId :=
  (corpus.filter (fun p => compositeKey t.fns p.2 == key)).map Prod.fst

/-- Modelled from the spec: `build` constructs `L` tables, each owning `k`
freshly sampled hash functions; the sampling randomness is passed in
explicitly as `sample table_index function_index`. -/
def buildTables (sample : ℕ → ℕ → Vec) (k L : ℕ) : List HashTable :=
  (List.range L).map (fun t => ⟨(List.range k).map (sample t)⟩)

/-- Modelled from the spec: `LSHIndex.build` fails with `InvalidConfig` if
`k < 1` or `L < 1` or the corpus is empty, and otherwise returns the index
owning the `L` freshly built tables and the corpus. -/
def build (sample : ℕ → ℕ → Vec) (corpus : List (ItemId × Vec)) (k L : ℕ) :
    Except LSHError LSHIndex :=
  if k < 1 ∨ L < 1 ∨ corpus = [] then Except.error LSHError.InvalidConfig
  else Except.ok ⟨buildTables sample k L, corpus⟩

/-- Modelled from the spec: the candidate set of a query is the deduplicated
union, over the `L` tables, of the bucket the query's composite key hits in
that table. -/
def candidateSet (idx : LSHIndex) (q : Vec) : List ItemId :=
  ((idx.tables.map
      (fun t => bucket t idx.corpus (compositeKey t.fns q))).flatten).dedup

/-- Modelled from the spec: the re-ranking order on scored candidates —
descending exact score, ties broken by ascending `ItemId`. -/
def rankRel (p q : ItemId × ℚ) : Prop :=
  q.2 < p.2 ∨ (p.2 = q.2 ∧ p.1 ≤ q.1)

instance : DecidableRel rankRel := fun p q =>
  inferInstanceAs (Decidable (q.2 < p.2 ∨ (p.2 = q.2 ∧ p.1 ≤ q.1)))

instance : IsTotal (ItemId × ℚ) rankRel :=
  ⟨fun p q => by
    rcases lt_trichotomy p.2 q.2 with h | h | h
    · exact Or.inr (Or.inl h)
    · rcases Nat.le_total p.1 q.1 with hn | hn
      · exact Or.inl (Or.inr ⟨h, hn⟩)
      · exact Or.inr (Or.inr ⟨h.symm, hn⟩)
    · exact Or.inl (Or.inl h)⟩

instance : IsTrans (ItemId × ℚ) rankRel :=
  ⟨fun p q r hpq hqr => by
    rcases hpq with h1 | ⟨h1, h1l⟩
    · rcases hqr with h2 | ⟨h2, _⟩
      · exact Or.inl (h2.trans h1)
      · exact Or.inl (h2 ▸ h1)
    · rcases hqr with h2 | ⟨h2, h2l⟩
      · exact Or.inl (h1.symm ▸ h2)
      · exact Or.inr ⟨h1.trans h2, h1l.trans h2l⟩⟩

/-- Modelled from the spec: a query's answer — the ranked results of length
at most `K` and the touched fraction `|candidate set| / |corpus|`. -/
structure QueryResult where
  results : List (ItemId × ℚ)
  touched : ℚ
deriving DecidableEq

/-- Modelled from the spec: `LSHIndex.query` gathers the candidate set from
the bucket hits of all tables, scores every candidate with the exact
similarity function, sorts by descending score with ties broken by ascending
`ItemId`, truncates to the first `K`, and records the touched fraction. -/
def query (idx : LSHIndex) (sim : Vec → Vec → ℚ) (q : Vec) (K : ℕ) :
    QueryResult :=
  let cands := candidateSet idx q
  let scored := cands.map (fun i => (i, sim q ((idx.corpus.lookup i).getD [])))
  ⟨(List.insertionSort rankRel scored).take K,
    (cands.length : ℚ) / (idx.corpus.length : ℚ)⟩

/-- A concrete sampling function used by the witnesses below: every sampled
direction is the one-dimensional vector `[1]`. -/
def sampleW : ℕ → ℕ → Vec := fun _ _ => [(1 : ℚ)]

/-- A concrete three-item corpus used by the witnesses below. -/
def corpusW : List (ItemId × Vec) := [(0, [1]), (1, [2]), (2, [-1])]

/-- The index `build` produces from `corpusW` with `k = 1`, `L = 1`. -/
def idxW : LSHIndex := ⟨[⟨[[(1 : ℚ)]]⟩], corpusW⟩

/-- A concrete one-item corpus whose single bucket the witness query for the
empty-candidate-set claim misses. -/
def corpusE : List (ItemId × Vec) := [(0, [(1 : ℚ)])]

/-- The index `build` produces from `corpusE` with `k = 1`, `L = 1`. -/
def idxE : LSHIndex := ⟨[⟨[[(1 : ℚ)]]⟩], corpusE⟩

theorem dot_nil_left {α : Type} [Add α] [Mul α] [Zero α] (v : List α) :
    dot ([] : List α) v = 0 := by
  cases v <;> rfl

theorem dot_cons {α : Type} [Add α] [Mul α] [Zero α] (a b : α) (as bs : List α) :
    dot (a :: as) (b :: bs) = a * b + dot as bs := rfl

theorem dot_self_nonneg (v : List ℝ) : 0 ≤ dot v v := by
  induction v with
  | nil => simp [dot]
  | cons a as ih => simpa [dot] using add_nonneg (mul_self_nonneg a) ih

theorem dot_self_eq_zero (v : List ℝ) (h : dot v v = 0) : ∀ a ∈ v, a = 0 := by
  induction v with
  | nil => simp
  | cons a as ih =>
    rw [dot_cons] at h
    have h1 : a * a = 0 ∧ dot as as = 0 := by
      constructor
      · nlinarith [dot_self_nonneg as, mul_self_nonneg a]
      · nlinarith [dot_self_nonneg as, mul_self_nonneg a]
    intro b hb
    rcases List.mem_cons.mp hb with rfl | hb
    · exact mul_self_eq_zero.mp h1.1
    · exact ih h1.2 _ hb

theorem dot_self_pos (x : List ℝ) (hx : ∃ a ∈ x, a ≠ 0) : 0 < dot x x := by
  rcases hx with ⟨a, ha, hne⟩
  rcases lt_or_eq_of_le (dot_self_nonneg x) with h | h
  · exact h
  · exact absurd (dot_self_eq_zero x h.symm a ha) hne

theorem dot_zero_right (x y : List ℝ) (h : ∀ b ∈ y, b = 0) : dot x y = 0 := by
  induction x generalizing y with
  | nil => simpa using dot_nil_left y
  | cons a as ih =>
    cases y with
    | nil => rfl
    | cons b bs =>
      have hb : b = 0 := h b (List.mem_cons_self b bs)
      have hbs : ∀ c ∈ bs, c = 0 := fun c hc => h c (List.mem_cons_of_mem b hc)
      simp [dot_cons, hb, ih bs hbs]

theorem dot_append_single (x y : List ℝ) (a b : ℝ) (h : x.length = y.length) :
    dot (x ++ [a]) (y ++ [b]) = dot x y + a * b := by
  induction x generalizing y with
  | nil =>
    have : y = [] := by
      cases y with
      | nil => rfl
      | cons c cs => simp at h
    simp [this, dot, dot_nil_left]
  | cons c cs ih =>
    cases y with
    | nil => simp at h
    | cons d ds =>
      have hlen : cs.length = ds.length := by simpa using h
      simp only [List.cons_append, dot_cons, ih ds hlen, add_assoc]

theorem vnorm_nonneg (v : List ℝ) : 0 ≤ vnorm v := Real.sqrt_nonneg _

theorem vnorm_sq (v : List ℝ) : vnorm v ^ 2 = dot v v :=
  Real.sq_sqrt (dot_self_nonneg v)

theorem vnorm_pos (x : List ℝ) (hx : ∃ a ∈ x, a ≠ 0) : 0 < vnorm x :=
  Real.sqrt_pos.mpr (dot_self_pos x hx)

theorem vnorm_eq_zero_iff (v : List ℝ) : vnorm v = 0 ↔ dot v v = 0 :=
  Real.sqrt_eq_zero (dot_self_nonneg v)

theorem foldr_max_nonneg (l : List ℝ) : 0 ≤ l.foldr max 0 := by
  induction l with
  | nil => simp
  | cons a as ih => exact le_trans ih (le_max_right a _)

theorem le_foldr_max (l : List ℝ) (a : ℝ) (ha : a ∈ l) : a ≤ l.foldr max 0 := by
  induction l with
  | nil => simp at ha
  | cons b bs ih =>
    rcases List.mem_cons.mp ha with rfl | ha
    · exact le_max_left _ _
    · exact le_trans (ih ha) (le_max_right b _)

theorem foldr_max_mem (l : List ℝ) (hne : l ≠ []) (hpos : ∀ a ∈ l, 0 ≤ a) :
    l.foldr max 0 ∈ l := by
  induction l with
  | nil => exact absurd rfl hne
  | cons a as ih =>
    cases as with
    | nil =>
      have ha : max a 0 = a := max_eq_left (hpos a (by simp))
      rw [List.foldr_cons, List.foldr_nil, ha]
      exact List.mem_cons_self a _
    | cons b bs =>
      have hmem : (b :: bs).foldr max 0 ∈ b :: bs :=
        ih (by simp) (fun c hc => hpos c (List.mem_cons_of_mem a hc))
      rcases le_total ((b :: bs).foldr max 0) a with h | h
      · rw [List.foldr_cons, max_eq_left h]
        exact List.mem_cons_self a _
      · rw [List.foldr_cons, max_eq_right h]
        exact List.mem_cons_of_mem a hmem

theorem max_norm_nonneg (data : List (List ℝ)) : 0 ≤ max_norm data :=
  foldr_max_nonneg _

theorem vnorm_le_max_norm (data : List (List ℝ)) (y : List ℝ) (hy : y ∈ data) :
    vnorm y ≤ max_norm data :=
  le_foldr_max _ _ (List.mem_map_of_mem vnorm hy)

theorem max_norm_attained (data : List (List ℝ)) (hne : data ≠ []) :
    ∃ y ∈ data, vnorm y = max_norm data := by
  have hm : max_norm data ∈ norms data := by
    refine foldr_max_mem _ ?_ ?_
    · simpa [norms] using hne
    · intro a ha
      rcases List.mem_map.mp ha with ⟨y, _, rfl⟩
      exact vnorm_nonneg y
  rcases List.mem_map.mp hm with ⟨y, hy, hvy⟩
  exact ⟨y, hy, hvy⟩

theorem radicand_nonneg (data : List (List ℝ)) (y : List ℝ) (hy : y ∈ data) :
    0 ≤ max_norm data ^ 2 - vnorm y ^ 2 := by
  have h := vnorm_le_max_norm data y hy
  nlinarith [vnorm_nonneg y, max_norm_nonneg data]

theorem xbox_data_eq_map (data : List (List ℝ)) :
    xbox_data data = data.map (xboxRow data) := by
  unfold xbox_data xboxColumn norms xboxRow
  rw [List.zipWith_map_right, List.zipWith_map_right, List.zipWith_same]

theorem xboxRow_extra_sq (data : List (List ℝ)) (y : List ℝ) (hy : y ∈ data) :
    Real.sqrt (max_norm data ^ 2 - vnorm y ^ 2)
      * Real.sqrt (max_norm data ^ 2 - vnorm y ^ 2)
      = max_norm data ^ 2 - vnorm y ^ 2 :=
  Real.mul_self_sqrt (radicand_nonneg data y hy)

theorem vnorm_xboxRow (data : List (List ℝ)) (y : List ℝ) (hy : y ∈ data) :
    vnorm (xboxRow data y) = max_norm data := by
  unfold vnorm xboxRow
  rw [dot_append_single y y _ _ rfl, xboxRow_extra_sq data y hy, ← vnorm_sq y]
  have : vnorm y ^ 2 + (max_norm data ^ 2 - vnorm y ^ 2) = max_norm data ^ 2 := by
    ring
  rw [this, Real.sqrt_sq (max_norm_nonneg data)]

theorem dot_query_xboxRow (data : List (List ℝ)) (x y : List ℝ)
    (h : x.length = y.length) :
    dot (x ++ [0]) (xboxRow data y) = dot x y := by
  unfold xboxRow
  rw [dot_append_single x y _ _ h, zero_mul, add_zero]

theorem vnorm_append_zero (x : List ℝ) : vnorm (x ++ [0]) = vnorm x := by
  unfold vnorm
  rw [dot_append_single x x 0 0 rfl, zero_mul, add_zero]

theorem cosine_xboxRow (data : List (List ℝ)) (x y : List ℝ)
    (hy : y ∈ data) (h : x.length = y.length) :
    cosine (x ++ [0]) (xboxRow data y) = dot x y / (max_norm data * vnorm x) := by
  unfold cosine
  rw [dot_query_xboxRow data x y h, vnorm_append_zero, vnorm_xboxRow data y hy,
    mul_comm (vnorm x) (max_norm data)]

theorem dot_eq_zero_of_max_norm_eq_zero (data : List (List ℝ)) (x y : List ℝ)
    (hy : y ∈ data) (hM : max_norm data = 0) : dot x y = 0 := by
  have h1 : vnorm y ≤ 0 := hM ▸ vnorm_le_max_norm data y hy
  have h2 : vnorm y = 0 := le_antisymm h1 (vnorm_nonneg y)
  exact dot_zero_right x y (dot_self_eq_zero y ((vnorm_eq_zero_iff y).mp h2))

/-- Claim C9: every Xbox-transformed item vector has Euclidean norm exactly
`max_norm`, the maximum item norm of the corpus; consequently for any query
`x` of matching dimension, the cosine similarity of the transformed query and
the transformed item equals `dot x y / (max_norm * vnorm x)`. -/
theorem xboxRow_norm_eq_max_norm (data : List (List ℝ)) (y : List ℝ)
    (hy : y ∈ data) :
    vnorm (xboxRow data y) = max_norm data
    ∧ ∀ x : List ℝ, x.length = y.length →
        cosine (x ++ [0]) (xboxRow data y) = dot x y / (max_norm data * vnorm x) :=
  ⟨vnorm_xboxRow data y hy, fun x hx => cosine_xboxRow data x y hy hx⟩

/-- Witness for C9 at the corpus `[[3, 4], [0, 0]]` and query `[1, 2]`. -/
theorem xboxRow_norm_eq_max_norm_witness :
    ([(3 : ℝ), 4] ∈ [[(3 : ℝ), 4], [0, 0]])
    ∧ (vnorm (xboxRow [[(3 : ℝ), 4], [0, 0]] [3, 4])
          = max_norm [[(3 : ℝ), 4], [0, 0]]
        ∧ ∀ x : List ℝ, x.length = ([(3 : ℝ), 4] : List ℝ).length →
            cosine (x ++ [0]) (xboxRow [[(3 : ℝ), 4], [0, 0]] [3, 4])
              = dot x [(3 : ℝ), 4]
                / (max_norm [[(3 : ℝ), 4], [0, 0]] * vnorm x)) :=
  ⟨by simp, xboxRow_norm_eq_max_norm [[(3 : ℝ), 4], [0, 0]] [3, 4] (by simp)⟩

/-- Claim C1: for a nonempty corpus whose item vectors have the query's
dimension and a non-zero query `x`, the ranking of items by inner product
with `x` coincides with the ranking by cosine similarity of the
Xbox-transformed query and item vectors. -/
theorem xbox_preserves_ranking (data : List (List ℝ)) (x : List ℝ)
    (hne : data ≠ []) (hdim : ∀ y ∈ data, y.length = x.length)
    (hx : ∃ a ∈ x, a ≠ 0) :
    ∀ y₁ ∈ data, ∀ y₂ ∈ data,
      (dot x y₁ ≤ dot x y₂ ↔
        cosine (x ++ [0]) (xboxRow data y₁)
          ≤ cosine (x ++ [0]) (xboxRow data y₂)) := by
  intro y₁ h₁ y₂ h₂
  rw [cosine_xboxRow data x y₁ h₁ (hdim y₁ h₁).symm,
    cosine_xboxRow data x y₂ h₂ (hdim y₂ h₂).symm]
  have hxpos : 0 < vnorm x := vnorm_pos x hx
  rcases eq_or_lt_of_le (max_norm_nonneg data) with hM | hM
  · rw [dot_eq_zero_of_max_norm_eq_zero data x y₁ h₁ hM.symm,
      dot_eq_zero_of_max_norm_eq_zero data x y₂ h₂ hM.symm]
    simp
  · have hden : 0 < max_norm data * vnorm x := mul_pos hM hxpos
    exact Iff.symm (div_le_div_iff_of_pos_right hden)

/-- Witness for C1 at the corpus `[[1, 0], [0, 1], [2, 2]]` and the query
`[2, 1]`. -/
theorem xbox_preserves_ranking_witness :
    (([[(1 : ℝ), 0], [0, 1], [2, 2]] : List (List ℝ)) ≠ []
      ∧ (∀ y ∈ [[(1 : ℝ), 0], [0, 1], [2, 2]],
          y.length = ([(2 : ℝ), 1] : List ℝ).length)
      ∧ (∃ a ∈ [(2 : ℝ), 1], a ≠ 0))
    ∧ ∀ y₁ ∈ [[(1 : ℝ), 0], [0, 1], [2, 2]],
        ∀ y₂ ∈ [[(1 : ℝ), 0], [0, 1], [2, 2]],
          (dot [(2 : ℝ), 1] y₁ ≤ dot [(2 : ℝ), 1] y₂ ↔
            cosine ([(2 : ℝ), 1] ++ [0])
                (xboxRow [[(1 : ℝ), 0], [0, 1], [2, 2]] y₁)
              ≤ cosine ([(2 : ℝ), 1] ++ [0])
                (xboxRow [[(1 : ℝ), 0], [0, 1], [2, 2]] y₂)) :=
  ⟨⟨by simp, by intro y hy; fin_cases hy <;> simp, ⟨2, by simp, by norm_num⟩⟩,
    xbox_preserves_ranking [[(1 : ℝ), 0], [0, 1], [2, 2]] [2, 1]
      (by simp) (by intro y hy; fin_cases hy <;> simp)
      ⟨2, by simp, by norm_num⟩⟩

/-- Claim C2: on a nonempty corpus, `max_norm` is the maximum Euclidean norm
over the item vectors (an attained upper bound), `xbox_data` maps each item
row `y` to `y ++ [sqrt (max_norm ^ 2 - ‖y‖^2)]` (with `‖y‖^2 = dot y y` the
squared Euclidean norm), and `xbox_queries` appends a zero coordinate to
every query row. -/
theorem xbox_transform_spec (data qs : List (List ℝ)) (hne : data ≠ []) :
    ((∀ y ∈ data, vnorm y ≤ max_norm data)
      ∧ ∃ y ∈ data, vnorm y = max_norm data)
    ∧ xbox_data data
        = data.map (fun y => y ++ [Real.sqrt (max_norm data ^ 2 - dot y y)])
    ∧ xbox_queries qs = qs.map (fun x => x ++ [0]) := by
  refine ⟨⟨fun y hy => vnorm_le_max_norm data y hy, max_norm_attained data hne⟩,
    ?_, rfl⟩
  rw [xbox_data_eq_map]
  exact List.map_congr_left fun y _ => by rw [xboxRow, vnorm_sq]

/-- Witness for C2 at the corpus `[[3, 4], [1, 0]]` and queries `[[1, 2]]`. -/
theorem xbox_transform_spec_witness :
    (([[(3 : ℝ), 4], [1, 0]] : List (List ℝ)) ≠ [])
    ∧ (((∀ y ∈ [[(3 : ℝ), 4], [1, 0]],
          vnorm y ≤ max_norm [[(3 : ℝ), 4], [1, 0]])
        ∧ ∃ y ∈ [[(3 : ℝ), 4], [1, 0]],
            vnorm y = max_norm [[(3 : ℝ), 4], [1, 0]])
      ∧ xbox_data [[(3 : ℝ), 4], [1, 0]]
          = ([[(3 : ℝ), 4], [1, 0]] : List (List ℝ)).map
              (fun y => y ++
                [Real.sqrt (max_norm [[(3 : ℝ), 4], [1, 0]] ^ 2 - dot y y)])
      ∧ xbox_queries [[(1 : ℝ), 2]]
          = ([[(1 : ℝ), 2]] : List (List ℝ)).map (fun x => x ++ [0])) :=
  ⟨by simp, xbox_transform_spec [[(3 : ℝ), 4], [1, 0]] [[(1 : ℝ), 2]] (by simp)⟩

/-- Claim C3: for every corpus item the radicand `max_norm ^ 2 - ‖y‖ ^ 2` is
already non-negative (so clamping it at zero is the identity), hence the
appended coordinate is a non-negative real number and equals the square root
of the clamped radicand — the computation never takes the square root of a
negative quantity, for any corpus including the maximum-norm item. -/
theorem xbox_radicand_clamped (data : List (List ℝ)) :
    ∀ y ∈ data,
      0 ≤ max_norm data ^ 2 - vnorm y ^ 2
      ∧ max (max_norm data ^ 2 - vnorm y ^ 2) 0
          = max_norm data ^ 2 - vnorm y ^ 2
      ∧ 0 ≤ Real.sqrt (max_norm data ^ 2 - vnorm y ^ 2)
      ∧ Real.sqrt (max_norm data ^ 2 - vnorm y ^ 2)
          = Real.sqrt (max (max_norm data ^ 2 - vnorm y ^ 2) 0) := by
  intro y hy
  have h := radicand_nonneg data y hy
  exact ⟨h, max_eq_left h, Real.sqrt_nonneg _, by rw [max_eq_left h]⟩

/-- Witness for C3 at the corpus `[[3, 4], [5, 12]]`, checked at its
maximum-norm item `[5, 12]`. -/
theorem xbox_radicand_clamped_witness :
    ([(5 : ℝ), 12] ∈ [[(3 : ℝ), 4], [5, 12]])
    ∧ (0 ≤ max_norm [[(3 : ℝ), 4], [5, 12]] ^ 2 - vnorm [(5 : ℝ), 12] ^ 2
      ∧ max (max_norm [[(3 : ℝ), 4], [5, 12]] ^ 2 - vnorm [(5 : ℝ), 12] ^ 2) 0
          = max_norm [[(3 : ℝ), 4], [5, 12]] ^ 2 - vnorm [(5 : ℝ), 12] ^ 2
      ∧ 0 ≤ Real.sqrt
            (max_norm [[(3 : ℝ), 4], [5, 12]] ^ 2 - vnorm [(5 : ℝ), 12] ^ 2)
      ∧ Real.sqrt
            (max_norm [[(3 : ℝ), 4], [5, 12]] ^ 2 - vnorm [(5 : ℝ), 12] ^ 2)
          = Real.sqrt
              (max (max_norm [[(3 : ℝ), 4], [5, 12]] ^ 2
                - vnorm [(5 : ℝ), 12] ^ 2) 0)) :=
  ⟨by simp, xbox_radicand_clamped [[(3 : ℝ), 4], [5, 12]] [5, 12] (by simp)⟩

/-- Claim C10: appending a single zero coordinate to both a query and an item
vector of equal dimension leaves the inner product unchanged, so the
zero-padded vectors induce exactly the same dot-product ranking of items as
the original vectors. -/
theorem same_transform_preserves_dot (x y : List ℝ) (h : x.length = y.length) :
    dot (x ++ [0]) (y ++ [0]) = dot x y
    ∧ ∀ data : List (List ℝ), (∀ v ∈ data, v.length = x.length) →
        ∀ y₁ ∈ data, ∀ y₂ ∈ data,
          (dot x y₁ ≤ dot x y₂ ↔
            dot (x ++ [0]) (y₁ ++ [0]) ≤ dot (x ++ [0]) (y₂ ++ [0])) := by
  constructor
  · rw [dot_append_single x y 0 0 h, zero_mul, add_zero]
  · intro data hdim y₁ h₁ y₂ h₂
    rw [dot_append_single x y₁ 0 0 (hdim y₁ h₁).symm, zero_mul, add_zero,
      dot_append_single x y₂ 0 0 (hdim y₂ h₂).symm, zero_mul, add_zero]

/-- Witness for C10 at `x = [1, 2]`, `y = [3, 4]`. -/
theorem same_transform_preserves_dot_witness :
    (([(1 : ℝ), 2] : List ℝ).length = ([(3 : ℝ), 4] : List ℝ).length)
    ∧ (dot ([(1 : ℝ), 2] ++ [0]) ([(3 : ℝ), 4] ++ [0]) = dot [(1 : ℝ), 2] [3, 4]
      ∧ ∀ data : List (List ℝ),
          (∀ v ∈ data, v.length = ([(1 : ℝ), 2] : List ℝ).length) →
          ∀ y₁ ∈ data, ∀ y₂ ∈ data,
            (dot [(1 : ℝ), 2] y₁ ≤ dot [(1 : ℝ), 2] y₂ ↔
              dot ([(1 : ℝ), 2] ++ [0]) (y₁ ++ [0])
                ≤ dot ([(1 : ℝ), 2] ++ [0]) (y₂ ++ [0]))) :=
  ⟨rfl, same_transform_preserves_dot [(1 : ℝ), 2] [(3 : ℝ), 4] rfl⟩

theorem candidateSet_nodup (idx : LSHIndex) (q : Vec) :
    (candidateSet idx q).Nodup :=
  List.nodup_dedup _

theorem nodup_length_le (l t : List ℕ) (hl : l.Nodup) (hsub : ∀ a ∈ l, a ∈ t) :
    l.length ≤ t.length := by
  have h1 : l.toFinset.card = l.length := List.toFinset_card_of_nodup hl
  have h2 : l.toFinset ⊆ t.toFinset := by
    intro a ha
    exact List.mem_toFinset.mpr (hsub a (List.mem_toFinset.mp ha))
  calc l.length = l.toFinset.card := h1.symm
    _ ≤ t.toFinset.card := Finset.card_le_card h2
    _ ≤ t.length := t.toFinset_card_le

theorem candidateSet_subset (idx : LSHIndex) (q : Vec) :
    ∀ i ∈ candidateSet idx q, i ∈ idx.corpus.map Prod.fst := by
  intro i hi
  rcases List.mem_flatten.mp (List.mem_dedup.mp hi) with ⟨l, hl, hil⟩
  rcases List.mem_map.mp hl with ⟨t, _, rfl⟩
  rcases List.mem_map.mp hil with ⟨p, hp, rfl⟩
  exact List.mem_map_of_mem Prod.fst (List.mem_of_mem_filter hp)

theorem build_ok_inv (sample : ℕ → ℕ → Vec) (corpus : List (ItemId × Vec))
    (k L : ℕ) (idx : LSHIndex)
    (hb : build sample corpus k L = Except.ok idx) :
    idx = ⟨buildTables sample k L, corpus⟩ ∧ corpus ≠ [] := by
  unfold build at hb
  split at hb
  · exact absurd hb (by simp)
  · rename_i hcond
    push_neg at hcond
    exact ⟨((Except.ok.injEq _ _).mp hb).symm, hcond.2.2⟩

theorem query_results_eq (idx : LSHIndex) (sim : Vec → Vec → ℚ) (q : Vec)
    (K : ℕ) :
    (query idx sim q K).results
      = (List.insertionSort rankRel
          ((candidateSet idx q).map
            (fun i => (i, sim q ((idx.corpus.lookup i).getD []))))).take K := rfl

theorem query_touched_eq (idx : LSHIndex) (sim : Vec → Vec → ℚ) (q : Vec)
    (K : ℕ) :
    (query idx sim q K).touched
      = ((candidateSet idx q).length : ℚ) / (idx.corpus.length : ℚ) := rfl

theorem scored_map_fst (idx : LSHIndex) (sim : Vec → Vec → ℚ) (q : Vec) :
    ((candidateSet idx q).map
        (fun i => (i, sim q ((idx.corpus.lookup i).getD [])))).map Prod.fst
      = candidateSet idx q := by
  rw [List.map_map]
  exact List.map_id _

theorem sorted_scored_nodup_fst (idx : LSHIndex) (sim : Vec → Vec → ℚ)
    (q : Vec) :
    ((List.insertionSort rankRel
        ((candidateSet idx q).map
          (fun i => (i, sim q ((idx.corpus.lookup i).getD []))))).map
        Prod.fst).Nodup := by
  have hperm := List.perm_insertionSort rankRel
    ((candidateSet idx q).map
      (fun i => (i, sim q ((idx.corpus.lookup i).getD []))))
  refine ((hperm.map Prod.fst).nodup_iff).mpr ?_
  rw [scored_map_fst]
  exact candidateSet_nodup idx q

/-- Claim C4: for a built index, any similarity function, any query and any
`K ≥ 1`, `query` returns the candidates ordered by strictly descending exact
score with ties broken by strictly ascending `ItemId`, truncated to the
first `K`: the result length is `min K |candidates|`, every returned pair is
a candidate carrying its exact score, every returned entry strictly outranks
(higher exact score, or equal score and smaller `ItemId`) every candidate
that is not returned — so the result is exactly the first `K` entries of the
sorted candidate order — and when the candidate set has at most `K` elements
the returned identifiers are exactly the candidate set with no padding. -/
theorem query_sorted_topK (sample : ℕ → ℕ → Vec) (corpus : List (ItemId × Vec))
    (k L K : ℕ) (idx : LSHIndex) (sim : Vec → Vec → ℚ) (q : Vec)
    (hb : build sample corpus k L = Except.ok idx) (hK : 1 ≤ K) :
    (query idx sim q K).results.length = min K (candidateSet idx q).length
    ∧ (query idx sim q K).results.Pairwise
        (fun p r => r.2 < p.2 ∨ (p.2 = r.2 ∧ p.1 < r.1))
    ∧ (∀ p ∈ (query idx sim q K).results,
        p.1 ∈ candidateSet idx q
        ∧ p.2 = sim q ((idx.corpus.lookup p.1).getD []))
    ∧ (∀ p ∈ (query idx sim q K).results,
        ∀ i ∈ candidateSet idx q,
          i ∉ (query idx sim q K).results.map Prod.fst →
            (sim q ((idx.corpus.lookup i).getD []) < p.2
              ∨ (p.2 = sim q ((idx.corpus.lookup i).getD []) ∧ p.1 < i)))
    ∧ ((candidateSet idx q).length ≤ K →
        List.Perm ((query idx sim q K).results.map Prod.fst)
          (candidateSet idx q)) := by
  have hperm := List.perm_insertionSort rankRel
    ((candidateSet idx q).map
      (fun i => (i, sim q ((idx.corpus.lookup i).getD []))))
  refine ⟨?_, ?_, ?_, ?_, ?_⟩
  · rw [query_results_eq, List.length_take, List.length_insertionSort,
      List.length_map]
  · rw [query_results_eq]
    have hsorted : (List.insertionSort rankRel
        ((candidateSet idx q).map
          (fun i => (i, sim q ((idx.corpus.lookup i).getD []))))).Pairwise
        rankRel :=
      List.sorted_insertionSort rankRel _
    have hne : (List.insertionSort rankRel
        ((candidateSet idx q).map
          (fun i => (i, sim q ((idx.corpus.lookup i).getD []))))).Pairwise
        (fun p r => p.1 ≠ r.1) :=
      List.pairwise_map.mp (sorted_scored_nodup_fst idx sim q)
    refine List.Pairwise.sublist (List.take_sublist _ _)
      ((hsorted.and hne).imp ?_)
    intro p r hpr
    rcases hpr with ⟨hlt | ⟨heq, hle⟩, hfne⟩
    · exact Or.inl hlt
    · exact Or.inr ⟨heq, lt_of_le_of_ne hle hfne⟩
  · intro p hp
    rw [query_results_eq] at hp
    have hp2 := hperm.mem_iff.mp ((List.take_sublist _ _).subset hp)
    rcases List.mem_map.mp hp2 with ⟨i, hi, rfl⟩
    exact ⟨hi, rfl⟩
  · intro p hp i hi hnot
    rw [query_results_eq] at hp hnot
    have hsorted : (List.insertionSort rankRel
        ((candidateSet idx q).map
          (fun i => (i, sim q ((idx.corpus.lookup i).getD []))))).Pairwise
        rankRel :=
      List.sorted_insertionSort rankRel _
    have hsplit : (List.insertionSort rankRel
          ((candidateSet idx q).map
            (fun i => (i, sim q ((idx.corpus.lookup i).getD []))))).take K
          ++ (List.insertionSort rankRel
            ((candidateSet idx q).map
              (fun i => (i, sim q ((idx.corpus.lookup i).getD []))))).drop K
        = List.insertionSort rankRel
            ((candidateSet idx q).map
              (fun i => (i, sim q ((idx.corpus.lookup i).getD [])))) :=
      List.take_append_drop K _
    have hdom := (List.pairwise_append.mp (hsplit ▸ hsorted)).2.2
    have hrS : (i, sim q ((idx.corpus.lookup i).getD []))
        ∈ List.insertionSort rankRel
          ((candidateSet idx q).map
            (fun i => (i, sim q ((idx.corpus.lookup i).getD [])))) :=
      hperm.mem_iff.mpr (List.mem_map_of_mem _ hi)
    have hrdrop : (i, sim q ((idx.corpus.lookup i).getD []))
        ∈ (List.insertionSort rankRel
          ((candidateSet idx q).map
            (fun i => (i, sim q ((idx.corpus.lookup i).getD []))))).drop K := by
      rcases List.mem_append.mp (hsplit ▸ hrS) with hin | hin
      · exact absurd (List.mem_map_of_mem Prod.fst hin) hnot
      · exact hin
    have hne : p.1 ≠ i := by
      intro hpe
      exact hnot (hpe ▸ List.mem_map_of_mem Prod.fst hp)
    rcases hdom p hp _ hrdrop with hlt | ⟨heq, hle2⟩
    · exact Or.inl hlt
    · exact Or.inr ⟨heq, lt_of_le_of_ne hle2 hne⟩
  · intro hle
    rw [query_results_eq]
    have hlen : (List.insertionSort rankRel
        ((candidateSet idx q).map
          (fun i => (i, sim q ((idx.corpus.lookup i).getD []))))).length ≤ K := by
      rw [List.length_insertionSort, List.length_map]
      exact hle
    rw [List.take_of_length_le hlen]
    have h2 := hperm.map Prod.fst
    rw [scored_map_fst] at h2
    exact h2

/-- Witness for C4: a one-table one-bit index over `corpusW`, query `[1]`,
`K = 1` with two candidates — exercising the truncating case where the
candidate set is strictly larger than `K` — exact similarity `dot`. -/
theorem query_sorted_topK_witness :
    (build sampleW corpusW 1 1 = Except.ok idxW ∧ 1 ≤ 1)
    ∧ ((query idxW (dot : Vec → Vec → ℚ) [1] 1).results.length
          = min 1 (candidateSet idxW [1]).length
      ∧ (query idxW (dot : Vec → Vec → ℚ) [1] 1).results.Pairwise
          (fun p r => r.2 < p.2 ∨ (p.2 = r.2 ∧ p.1 < r.1))
      ∧ (∀ p ∈ (query idxW (dot : Vec → Vec → ℚ) [1] 1).results,
          p.1 ∈ candidateSet idxW [1]
          ∧ p.2 = dot [1] ((idxW.corpus.lookup p.1).getD []))
      ∧ (∀ p ∈ (query idxW (dot : Vec → Vec → ℚ) [1] 1).results,
          ∀ i ∈ candidateSet idxW [1],
            i ∉ (query idxW (dot : Vec → Vec → ℚ) [1] 1).results.map Prod.fst →
              (dot [1] ((idxW.corpus.lookup i).getD []) < p.2
                ∨ (p.2 = dot [1] ((idxW.corpus.lookup i).getD [])
                    ∧ p.1 < i)))
      ∧ ((candidateSet idxW [1]).length ≤ 1 →
          List.Perm
            ((query idxW (dot : Vec → Vec → ℚ) [1] 1).results.map Prod.fst)
            (candidateSet idxW [1]))) :=
  ⟨⟨rfl, le_refl 1⟩,
    query_sorted_topK sampleW corpusW 1 1 1 idxW (dot : Vec → Vec → ℚ) [1]
      rfl (le_refl 1)⟩

/-- Claim C5: for a built index, every candidate identifier (and hence every
identifier in the query result) belongs to the corpus, and the touched
fraction lies in the closed interval `[0, 1]`. -/
theorem query_candidates_in_corpus (sample : ℕ → ℕ → Vec)
    (corpus : List (ItemId × Vec)) (k L K : ℕ) (idx : LSHIndex)
    (sim : Vec → Vec → ℚ) (q : Vec)
    (hb : build sample corpus k L = Except.ok idx) :
    (∀ i ∈ candidateSet idx q, i ∈ corpus.map Prod.fst)
    ∧ (∀ p ∈ (query idx sim q K).results, p.1 ∈ corpus.map Prod.fst)
    ∧ 0 ≤ (query idx sim q K).touched
    ∧ (query idx sim q K).touched ≤ 1 := by
  obtain ⟨hidx, hcne⟩ := build_ok_inv sample corpus k L idx hb
  have hcorp : idx.corpus = corpus := by rw [hidx]
  have hsub : ∀ i ∈ candidateSet idx q, i ∈ corpus.map Prod.fst := by
    intro i hi
    exact hcorp ▸ candidateSet_subset idx q i hi
  have hperm := List.perm_insertionSort rankRel
    ((candidateSet idx q).map
      (fun i => (i, sim q ((idx.corpus.lookup i).getD []))))
  refine ⟨hsub, ?_, ?_, ?_⟩
  · intro p hp
    rw [query_results_eq] at hp
    have hp2 := hperm.mem_iff.mp ((List.take_sublist _ _).subset hp)
    rcases List.mem_map.mp hp2 with ⟨i, hi, rfl⟩
    exact hsub i hi
  · rw [query_touched_eq]
    exact div_nonneg (Nat.cast_nonneg _) (Nat.cast_nonneg _)
  · rw [query_touched_eq, hcorp]
    have hpos : (0 : ℚ) < (corpus.length : ℚ) := by
      exact_mod_cast List.length_pos.mpr hcne
    rw [div_le_one hpos]
    have hlen : (candidateSet idx q).length ≤ (corpus.map Prod.fst).length :=
      nodup_length_le _ _ (candidateSet_nodup idx q) hsub
    rw [List.length_map] at hlen
    exact_mod_cast hlen

/-- Witness for C5 at the one-table one-bit index over `corpusW`, query
`[1]`, `K = 1`. -/
theorem query_candidates_in_corpus_witness :
    (build sampleW corpusW 1 1 = Except.ok idxW)
    ∧ ((∀ i ∈ candidateSet idxW [1], i ∈ corpusW.map Prod.fst)
      ∧ (∀ p ∈ (query idxW (dot : Vec → Vec → ℚ) [1] 1).results,
          p.1 ∈ corpusW.map Prod.fst)
      ∧ 0 ≤ (query idxW (dot : Vec → Vec → ℚ) [1] 1).touched
      ∧ (query idxW (dot : Vec → Vec → ℚ) [1] 1).touched ≤ 1) :=
  ⟨rfl,
    query_candidates_in_corpus sampleW corpusW 1 1 1 idxW
      (dot : Vec → Vec → ℚ) [1] rfl⟩

/-- Claim C6: for a fixed bit count `k`, a fixed corpus and a fixed query,
raising the table count from `L₁` to `L₂ ≥ L₁` keeps the existing `L₁`
tables and appends new ones, every old candidate stays a candidate, and the
candidate-set size never decreases. -/
theorem candidateSet_monotone_tables (sample : ℕ → ℕ → Vec)
    (corpus : List (ItemId × Vec)) (k L₁ L₂ : ℕ) (q : Vec) (h : L₁ ≤ L₂) :
    buildTables sample k L₂
        = buildTables sample k L₁
          ++ (List.range (L₂ - L₁)).map
              (fun t => ⟨(List.range k).map (sample (L₁ + t))⟩)
    ∧ (∀ i ∈ candidateSet ⟨buildTables sample k L₁, corpus⟩ q,
        i ∈ candidateSet ⟨buildTables sample k L₂, corpus⟩ q)
    ∧ (candidateSet ⟨buildTables sample k L₁, corpus⟩ q).length
        ≤ (candidateSet ⟨buildTables sample k L₂, corpus⟩ q).length := by
  have hL : L₁ + (L₂ - L₁) = L₂ := Nat.add_sub_cancel' h
  have hmemT : ∀ t ∈ buildTables sample k L₁, t ∈ buildTables sample k L₂ := by
    intro t ht
    rcases List.mem_map.mp ht with ⟨j, hj, rfl⟩
    exact List.mem_map_of_mem _
      (List.mem_range.mpr (lt_of_lt_of_le (List.mem_range.mp hj) h))
  have hsub : ∀ i ∈ candidateSet ⟨buildTables sample k L₁, corpus⟩ q,
      i ∈ candidateSet ⟨buildTables sample k L₂, corpus⟩ q := by
    intro i hi
    rcases List.mem_flatten.mp (List.mem_dedup.mp hi) with ⟨l, hl, hil⟩
    rcases List.mem_map.mp hl with ⟨t, ht, rfl⟩
    refine List.mem_dedup.mpr (List.mem_flatten.mpr ⟨_, ?_, hil⟩)
    exact List.mem_map_of_mem _ (hmemT t ht)
  refine ⟨?_, hsub, ?_⟩
  · conv_lhs => rw [buildTables, ← hL, List.range_add]
    rw [List.map_append, List.map_map]
    rfl
  · exact nodup_length_le _ _ (candidateSet_nodup _ q) hsub

/-- Witness for C6 over `corpusW` with `k = 1`, going from one table to two,
query `[1]`. -/
theorem candidateSet_monotone_tables_witness :
    (1 ≤ 2)
    ∧ (buildTables sampleW 1 2
          = buildTables sampleW 1 1
            ++ (List.range (2 - 1)).map
                (fun t => ⟨(List.range 1).map (sampleW (1 + t))⟩)
      ∧ (∀ i ∈ candidateSet ⟨buildTables sampleW 1 1, corpusW⟩ [1],
          i ∈ candidateSet ⟨buildTables sampleW 1 2, corpusW⟩ [1])
      ∧ (candidateSet ⟨buildTables sampleW 1 1, corpusW⟩ [1]).length
          ≤ (candidateSet ⟨buildTables sampleW 1 2, corpusW⟩ [1]).length) :=
  ⟨by norm_num,
    candidateSet_monotone_tables sampleW corpusW 1 1 2 [1] (by norm_num)⟩

/-- Claim C7: `build` fails with `InvalidConfig` exactly when `k < 1` or
`L < 1` or the corpus is empty; otherwise it succeeds and returns the fully
built index — `build` is a pure function, so a failing build produces no
index state at all. -/
theorem build_invalid_config_iff (sample : ℕ → ℕ → Vec)
    (corpus : List (ItemId × Vec)) (k L : ℕ) :
    (build sample corpus k L = Except.error LSHError.InvalidConfig
      ↔ (k < 1 ∨ L < 1 ∨ corpus = []))
    ∧ (build sample corpus k L
          = Except.ok ⟨buildTables sample k L, corpus⟩
      ↔ ¬(k < 1 ∨ L < 1 ∨ corpus = [])) := by
  by_cases hc : k < 1 ∨ L < 1 ∨ corpus = []
  · rw [build, if_pos hc]
    refine ⟨⟨fun _ => hc, fun _ => rfl⟩, ?_, ?_⟩
    · intro h
      exact absurd h (by simp)
    · intro h
      exact absurd hc h
  · rw [build, if_neg hc]
    refine ⟨⟨?_, ?_⟩, fun _ => hc, fun _ => rfl⟩
    · intro h
      exact absurd h (by simp)
    · intro h
      exact absurd h hc

/-- Claim C8: for a built index, if no table produces a bucket hit (the
candidate set is empty) then `query` returns the empty result list with
touched fraction `0`; `query` is total, so no error is raised. -/
theorem query_empty_candidateSet (sample : ℕ → ℕ → Vec)
    (corpus : List (ItemId × Vec)) (k L K : ℕ) (idx : LSHIndex)
    (sim : Vec → Vec → ℚ) (q : Vec)
    (hb : build sample corpus k L = Except.ok idx)
    (hempty : candidateSet idx q = []) :
    (query idx sim q K).results = [] ∧ (query idx sim q K).touched = 0 := by
  constructor
  · rw [query_results_eq, hempty]
    simp
  · rw [query_touched_eq, hempty]
    simp

/-- Witness for C8: the one-item index over `corpusE` and the query `[-1]`,
whose bucket key differs from the single item's key. -/
theorem query_empty_candidateSet_witness :
    (build sampleW corpusE 1 1 = Except.ok idxE
      ∧ candidateSet idxE [-1] = [])
    ∧ ((query idxE (dot : Vec → Vec → ℚ) [-1] 3).results = []
      ∧ (query idxE (dot : Vec → Vec → ℚ) [-1] 3).touched = 0) :=
  ⟨⟨rfl, by simp [candidateSet, bucket, compositeKey, hashBit, idxE, corpusE, dot]; norm_num⟩,
    query_empty_candidateSet sampleW corpusE 1 1 3 idxE
      (dot : Vec → Vec → ℚ) [-1] rfl
      (by simp [candidateSet, bucket, compositeKey, hashBit, idxE, corpusE, dot]; norm_num)⟩

end SRR
